import Mathlib

/-!
Shallow embedding of the byte-leviathan backend (src/src-tauri/src/main.rs):
a single-file session with 512-byte aligned reads and interval-overlap tag
queries.  Files are modelled as lists of bytes (`Nat`), the open handle as the
file's content together with its seek cursor, and each Tauri command handler as
a state transformer on `FileState`.  The distinct error strings the source
returns are modelled as inductive error types whose constructors carry the
values interpolated into the messages.
-/

namespace ByteLeviathan

/-- A tag annotation over a byte interval, from `struct Tag` in main.rs.
The Rust field `end` is rendered `«end»` because `end` is a Lean keyword. -/
structure Tag where
  start : Nat
  «end» : Nat
  name : String
  display_name : String
  color : Option String
deriving DecidableEq, Repr

/-- An open read handle: the file's byte content plus the seek cursor.
The content stands for what the OS serves from the file; `pos` is the
handle's file position advanced by `seek` and `read`. -/
structure FileHandle where
  content : List Nat
  pos : Nat
deriving DecidableEq, Repr

/-- The session state, from `struct FileState` in main.rs. -/
structure FileState where
  file_path : Option String
  file : Option FileHandle
  file_size : Nat
  tags : List Tag
deriving DecidableEq, Repr

/-- `FileState::new()` from main.rs: the empty session. -/
def FileState.new : FileState :=
  { file_path := none, file := none, file_size := 0, tags := [] }

/-- Errors of `open_file`; each constructor stands for one distinct error
string of the source (`"Failed to open file: …"`, `"Failed to read metadata: …"`). -/
inductive OpenError where
  | openFailed
  | metadataFailed
deriving DecidableEq, Repr

/-- Errors of `get_file_data`; each constructor stands for one distinct error
string of the source, with the interpolated values as payloads:
`invalidRange` = "End position must be greater than start position",
`noFileOpen` = "No file is currently open",
`startBeyondEof s sz` = "Start position s exceeds file size sz",
`unexpectedEof` = "Unexpected EOF when reading file data". -/
inductive ReadError where
  | invalidRange
  | noFileOpen
  | startBeyondEof (start : Nat) (size : Nat)
  | unexpectedEof
deriving DecidableEq, Repr

/-- `open_file(path, state)` from main.rs.  The filesystem's answers are
explicit inputs: `osOpen` is what `File::open` yields (`none` = open error,
`some content` = a handle on a file with those bytes) and `metaOk` says
whether `file.metadata()` succeeds; its `len()` is the content's length.
Both calls happen before the session is touched, so on either error the
state is returned unchanged. -/
def open_file (path : String) (osOpen : Option (List Nat)) (metaOk : Bool)
    (st : FileState) : Except OpenError Nat × FileState :=
  match osOpen with
  | none => (.error .openFailed, st)
  | some content =>
    if metaOk then
      let file_size := content.length
      (.ok file_size,
        { file_path := some path
          file := some { content := content, pos := 0 }
          file_size := file_size
          tags := [] })
    else
      (.error .metadataFailed, st)

/-- `ALIGNMENT` from `get_file_data` in main.rs. -/
def ALIGNMENT : Nat := 512

/-- `aligned_start = (start / ALIGNMENT) * ALIGNMENT` from main.rs. -/
def aligned_start (start : Nat) : Nat :=
  (start / ALIGNMENT) * ALIGNMENT

/-- `aligned_end` from main.rs: `end` when it is already a multiple of
`ALIGNMENT`, else `end` rounded up to the next multiple. -/
def aligned_end (e : Nat) : Nat :=
  if e % ALIGNMENT = 0 then e else ((e / ALIGNMENT) + 1) * ALIGNMENT

/-- `Seek::seek(SeekFrom::Start(off))` on a regular file: always succeeds and
sets the cursor (seeking past EOF is legal). -/
def FileHandle.seek (h : FileHandle) (off : Nat) : FileHandle :=
  { h with pos := off }

/-- `Read::read_exact` on a regular file: succeeds iff `len` bytes are
available from the cursor, returning those bytes and advancing the cursor;
otherwise fails with `UnexpectedEof` (the cursor is then at EOF, having
consumed what was available). -/
def FileHandle.read_exact (h : FileHandle) (len : Nat) :
    Except ReadError (List Nat × FileHandle) :=
  if h.pos + len ≤ h.content.length then
    .ok ((h.content.drop h.pos).take len, { h with pos := h.pos + len })
  else
    .error .unexpectedEof

/-- `get_file_data(start, end, state)` from main.rs: check the three
preconditions in order, clamp `end` to the file size, widen to the enclosing
512-aligned window, seek, read exactly the aligned length, and slice the
requested bytes out of the aligned buffer.  Returns the result together with
the session state after the call (only the handle's cursor ever changes). -/
def get_file_data (st : FileState) (start e : Nat) :
    Except ReadError (List Nat) × FileState :=
  if e ≤ start then
    (.error .invalidRange, st)
  else
    match st.file with
    | none => (.error .noFileOpen, st)
    | some f =>
      let file_size := st.file_size
      if start ≥ file_size then
        (.error (.startBeyondEof start file_size), st)
      else
        let e := min e file_size
        let a_start := aligned_start start
        let a_end := aligned_end e
        let aligned_length := a_end - a_start
        let start_offset := start - a_start
        let requested_length := e - start
        let f := f.seek a_start
        match f.read_exact aligned_length with
        | .error err =>
          (.error err, { st with file := some { f with pos := f.content.length } })
        | .ok (aligned_buffer, f) =>
          (.ok ((aligned_buffer.drop start_offset).take requested_length),
           { st with file := some f })

/-- `get_tags_in_range(start, end, state)` from main.rs: linear filter with
the overlap predicate `tag.end >= start && tag.start <= end`.  The handler
never mutates the session; it is a pure function of the state. -/
def get_tags_in_range (st : FileState) (start e : Nat) : List Tag :=
  st.tags.filter (fun tag => decide (tag.«end» ≥ start) && decide (tag.start ≤ e))

/-- `get_all_tags(state)` from main.rs: a copy of the session's tags. -/
def get_all_tags (st : FileState) : List Tag :=
  st.tags

/-! ### Helper lemmas on the alignment arithmetic -/

lemma aligned_start_le (x : Nat) : aligned_start x ≤ x :=
  Nat.div_mul_le_self x ALIGNMENT

lemma le_aligned_end (x : Nat) : x ≤ aligned_end x := by
  unfold aligned_end ALIGNMENT
  split <;> omega

lemma aligned_end_of_dvd (x : Nat) (h : x % ALIGNMENT = 0) : aligned_end x = x := by
  unfold aligned_end
  exact if_pos h

/-- Core success lemma: on a freshly opened file (size field caching the
content's length) with `s < e`, `s <` the length, and the 512-aligned end of
the clamped window within the file, `get_file_data` returns exactly the
clamped requested bytes. -/
lemma get_file_data_ok (p : String) (content : List Nat) (pos : Nat) (tags : List Tag)
    (s e : Nat) (hse : s < e) (hsL : s < content.length)
    (hal : aligned_end (min e content.length) ≤ content.length) :
    (get_file_data ⟨some p, some ⟨content, pos⟩, content.length, tags⟩ s e).1 =
      .ok ((content.drop s).take (min e content.length - s)) := by
  have hsE : s < min e content.length := lt_min hse hsL
  have ha : aligned_start s ≤ s := aligned_start_le s
  have hEb : min e content.length ≤ aligned_end (min e content.length) :=
    le_aligned_end (min e content.length)
  have hcond : aligned_start s +
      (aligned_end (min e content.length) - aligned_start s) ≤ content.length := by omega
  simp only [get_file_data, FileHandle.seek, FileHandle.read_exact,
    not_le.mpr hse, if_false, not_le.mpr hsL, ge_iff_le, if_pos hcond]
  rw [List.drop_take, List.drop_drop, List.take_take]
  congr 2
  · omega
  · congr 1
    omega

/-! ### Claim theorems -/

/-- C1 (amended).  Read fidelity: for any freshly opened file of length `L`
and any `0 ≤ s < e ≤ L` such that the 512-aligned end of `e` stays within the
file (`aligned_end e ≤ L`), `get_file_data` succeeds and returns exactly the
bytes at offsets `[s, e)`, whose count is `e − s`.  (Without the alignment
side condition the code fails with `unexpectedEof`; see the counterexample.) -/
theorem C1_read_fidelity (p : String) (content : List Nat) (pos : Nat) (tags : List Tag)
    (s e : Nat) (hse : s < e) (heL : e ≤ content.length)
    (hal : aligned_end e ≤ content.length) :
    (get_file_data ⟨some p, some ⟨content, pos⟩, content.length, tags⟩ s e).1 =
      .ok ((content.drop s).take (e - s)) ∧
    ((content.drop s).take (e - s)).length = e - s := by
  have hsL : s < content.length := lt_of_lt_of_le hse heL
  have hmin : min e content.length = e := min_eq_left heL
  constructor
  · have h := get_file_data_ok p content pos tags s e hse hsL (by rw [hmin]; exact hal)
    rw [hmin] at h
    exact h
  · rw [List.length_take, List.length_drop]
    omega

set_option maxRecDepth 40000 in
/-- C1 witness: on a fresh 512-byte file of `9`s, `get_file_data 0 1` returns
the single byte `[9]`. -/
theorem C1_witness :
    (get_file_data ⟨some "w", some ⟨List.replicate 512 9, 0⟩,
        (List.replicate 512 9).length, []⟩ 0 1).1 = .ok [9] := by
  have h := (C1_read_fidelity "w" (List.replicate 512 9) 0 [] 0 1
    (by decide) (by decide) (by decide)).1
  rw [h]
  congr 1

set_option maxRecDepth 40000 in
/-- C1 counterexample: on a freshly opened 1-byte file `[7]` the request
`(0, 1)` satisfies `0 ≤ s < e ≤ L`, yet `get_file_data` fails with
`unexpectedEof` (the 512-aligned read runs past EOF and `read_exact`
rejects the short read) instead of returning `[7]` as the claim states. -/
theorem C1_counterexample :
    (get_file_data (open_file "a" (some [7]) true FileState.new).2 0 1).1
        = .error .unexpectedEof ∧
    (get_file_data (open_file "a" (some [7]) true FileState.new).2 0 1).1 ≠ .ok [7] := by
  refine ⟨rfl, fun h => ?_⟩
  rw [show (get_file_data (open_file "a" (some [7]) true FileState.new).2 0 1).1
      = .error .unexpectedEof from rfl] at h
  exact Except.noConfusion h

set_option maxRecDepth 40000 in
/-- C2.  Code behavior on the tail-EOF case: on a freshly opened 700-byte file
(length not a multiple of 512) the in-range request `(0, 700)` reaches the file
size, the enclosing aligned window is `[0, 1024)`, and the exact-length read
fails with `unexpectedEof` — the code neither zero-pads the aligned buffer nor
issues a short tail read, contradicting the claim that such reads succeed. -/
theorem C2_tail_eof_behavior :
    (get_file_data (open_file "t" (some (List.replicate 700 1)) true FileState.new).2 0 700).1
      = .error .unexpectedEof := rfl

/-- C3 (amended).  Tail clamp: for any freshly opened file of length `L`, any
`0 ≤ s < L` and any `e > L`, `get_file_data s e` clamps `e` to `L` and behaves
exactly like `get_file_data s L` (same result, same final state); when `L` is
a multiple of 512 the result is exactly the bytes `[s, L)`.  (When `L` is not
a multiple of 512 both calls fail with `unexpectedEof`; see the
counterexample.) -/
theorem C3_tail_clamp (p : String) (content : List Nat) (pos : Nat) (tags : List Tag)
    (s e : Nat) (hsL : s < content.length) (heL : content.length < e) :
    get_file_data ⟨some p, some ⟨content, pos⟩, content.length, tags⟩ s e =
      get_file_data ⟨some p, some ⟨content, pos⟩, content.length, tags⟩ s content.length ∧
    (content.length % ALIGNMENT = 0 →
      (get_file_data ⟨some p, some ⟨content, pos⟩, content.length, tags⟩ s e).1 =
        .ok ((content.drop s).take (content.length - s))) := by
  have hse : s < e := lt_trans hsL heL
  have hmin1 : min e content.length = content.length := min_eq_right heL.le
  constructor
  · simp [get_file_data, hmin1, min_self, not_le.mpr hse, not_le.mpr hsL]
  · intro hmod
    have h := get_file_data_ok p content pos tags s e hse hsL
      (by rw [hmin1, aligned_end_of_dvd content.length hmod])
    rw [hmin1] at h
    exact h

set_option maxRecDepth 40000 in
/-- C3 witness: on a fresh 1024-byte file of `3`s, the clamped request
`(1000, 2000)` coincides with `(1000, 1024)` and returns the last 24 bytes. -/
theorem C3_witness :
    get_file_data ⟨some "w", some ⟨List.replicate 1024 3, 0⟩,
        (List.replicate 1024 3).length, []⟩ 1000 2000 =
      get_file_data ⟨some "w", some ⟨List.replicate 1024 3, 0⟩,
        (List.replicate 1024 3).length, []⟩ 1000 ((List.replicate 1024 3).length) ∧
    (get_file_data ⟨some "w", some ⟨List.replicate 1024 3, 0⟩,
        (List.replicate 1024 3).length, []⟩ 1000 2000).1 = .ok (List.replicate 24 3) := by
  have h := C3_tail_clamp "w" (List.replicate 1024 3) 0 [] 1000 2000 (by decide) (by decide)
  refine ⟨h.1, ?_⟩
  rw [h.2 (by decide)]
  congr 1

set_option maxRecDepth 40000 in
/-- C3 counterexample: on a freshly opened 3-byte file `[3, 1, 4]` the request
`(0, 5)` has `e > L`, yet `get_file_data` fails with `unexpectedEof` (the
aligned read past EOF is rejected) instead of returning the bytes `[0, 3)` as
the claim states. -/
theorem C3_counterexample :
    (get_file_data (open_file "c" (some [3, 1, 4]) true FileState.new).2 0 5).1
        = .error .unexpectedEof ∧
    (get_file_data (open_file "c" (some [3, 1, 4]) true FileState.new).2 0 5).1
        ≠ .ok [3, 1, 4] := by
  refine ⟨rfl, fun h => ?_⟩
  rw [show (get_file_data (open_file "c" (some [3, 1, 4]) true FileState.new).2 0 5).1
      = .error .unexpectedEof from rfl] at h
  exact Except.noConfusion h

/-- C4.  Overlap query exactness: `get_tags_in_range st s e` contains a tag iff
it is one of the session's tags with `tag.end ≥ s` and `tag.start ≤ e` (both
endpoints inclusive), and contains no others; in particular a tag touching the
query at a single boundary byte is included. -/
theorem C4_overlap_exact (st : FileState) (s e : Nat) (tag : Tag) :
    tag ∈ get_tags_in_range st s e ↔ tag ∈ st.tags ∧ s ≤ tag.«end» ∧ tag.start ≤ e := by
  simp [get_tags_in_range, List.mem_filter, and_assoc]

/-- C5.  Precondition errors of `get_file_data`, checked in this order: if
`e ≤ s` it fails with `invalidRange` leaving the session untouched; otherwise
if no file is open it fails with `noFileOpen`; otherwise if `s ≥ file_size` it
fails with `startBeyondEof` carrying both values; otherwise no precondition
error is raised (any remaining failure is the I/O one). -/
theorem C5_precondition_order (st : FileState) (s e : Nat) :
    (e ≤ s → get_file_data st s e = (.error .invalidRange, st)) ∧
    (s < e → st.file = none → get_file_data st s e = (.error .noFileOpen, st)) ∧
    (s < e → st.file ≠ none → st.file_size ≤ s →
      get_file_data st s e = (.error (.startBeyondEof s st.file_size), st)) ∧
    (s < e → st.file ≠ none → s < st.file_size →
      (get_file_data st s e).1 ≠ .error .invalidRange ∧
      (get_file_data st s e).1 ≠ .error .noFileOpen ∧
      ∀ a b, (get_file_data st s e).1 ≠ .error (.startBeyondEof a b)) := by
  refine ⟨?_, ?_, ?_, ?_⟩
  · intro h
    unfold get_file_data
    rw [if_pos h]
  · intro h1 h2
    unfold get_file_data
    rw [if_neg (not_le.mpr h1), h2]
  · intro h1 h2 h3
    obtain ⟨f, hf⟩ := Option.ne_none_iff_exists'.mp h2
    simp [get_file_data, hf, not_le.mpr h1, h3]
  · intro h1 h2 h3
    obtain ⟨f, hf⟩ := Option.ne_none_iff_exists'.mp h2
    have h3' : ¬ st.file_size ≤ s := not_le.mpr h3
    by_cases h4 : aligned_start s +
        (aligned_end (min e st.file_size) - aligned_start s) ≤ f.content.length <;>
      refine ⟨?_, ?_, fun a b => ?_⟩ <;>
        simp [get_file_data, FileHandle.seek, FileHandle.read_exact, hf, not_le.mpr h1, h3', h4]

/-- C5 witness: the inverted range (5, 5) on the fresh empty session fails with
`invalidRange` and leaves the session unchanged. -/
theorem C5_witness :
    get_file_data FileState.new 5 5 = (.error .invalidRange, FileState.new) :=
  (C5_precondition_order FileState.new 5 5).1 (by decide)

/-- C6.  Open atomicity: when `open_file` fails (either because the OS open
fails or because the metadata read fails), the session is returned exactly as
it was. -/
theorem C6_open_atomicity (path : String) (st : FileState) :
    (∀ metaOk : Bool, open_file path none metaOk st = (.error .openFailed, st)) ∧
    (∀ content : List Nat, open_file path (some content) false st = (.error .metadataFailed, st)) :=
  ⟨fun _ => rfl, fun _ => rfl⟩

/-- C7.  Reset on open: after every successful `open_file` the tag sequence is
empty (so `get_all_tags` and every `get_tags_in_range` query return `[]`
whatever tags were held before), and path, handle and size are replaced by the
new file's triple, the size equalling the returned value. -/
theorem C7_reset_on_open (path : String) (content : List Nat) (st : FileState) :
    (open_file path (some content) true st).1 = .ok content.length ∧
    (open_file path (some content) true st).2.tags = [] ∧
    get_all_tags (open_file path (some content) true st).2 = [] ∧
    (∀ s e, get_tags_in_range (open_file path (some content) true st).2 s e = []) ∧
    (open_file path (some content) true st).2.file_path = some path ∧
    (open_file path (some content) true st).2.file = some ⟨content, 0⟩ ∧
    (open_file path (some content) true st).2.file_size = content.length :=
  ⟨rfl, rfl, rfl, fun _ _ => rfl, rfl, rfl, rfl⟩

/-- C8.  Overlap monotonicity: if `[s₁, e₁] ⊆ [s₂, e₂]` then every tag returned
by `get_tags_in_range` for the smaller query is returned for the larger one. -/
theorem C8_overlap_mono (st : FileState) (s₁ e₁ s₂ e₂ : Nat) (tag : Tag)
    (hs : s₂ ≤ s₁) (he : e₁ ≤ e₂) (h : tag ∈ get_tags_in_range st s₁ e₁) :
    tag ∈ get_tags_in_range st s₂ e₂ := by
  simp only [get_tags_in_range, List.mem_filter, Bool.and_eq_true, decide_eq_true_eq,
    ge_iff_le] at h ⊢
  exact ⟨h.1, le_trans hs h.2.1, le_trans h.2.2 he⟩

/-- C8 witness: the tag `[0, 99]` returned for the query `[50, 60]` is also
returned for the enclosing query `[40, 70]`. -/
theorem C8_witness :
    (⟨0, 99, "A", "tag A", none⟩ : Tag) ∈
      get_tags_in_range ⟨none, none, 0, [⟨0, 99, "A", "tag A", none⟩]⟩ 40 70 :=
  C8_overlap_mono ⟨none, none, 0, [⟨0, 99, "A", "tag A", none⟩]⟩ 50 60 40 70
    ⟨0, 99, "A", "tag A", none⟩ (by decide) (by decide) (by decide)

/-- C9.  Slice extraction is in bounds: whenever the three preconditions of
`get_file_data` pass, `start_offset + requested_length ≤ aligned_length`
(where `start_offset = s − aligned_start s`, `requested_length` is the clamped
length and `aligned_length = aligned_end − aligned_start`), so the final
sub-slice of the aligned buffer never leaves the buffer. -/
theorem C9_slice_in_bounds (s e size : Nat) (hse : s < e) (hsz : s < size) :
    (s - aligned_start s) + (min e size - s) ≤ aligned_end (min e size) - aligned_start s := by
  have h1 : aligned_start s ≤ s := aligned_start_le s
  have h2 : min e size ≤ aligned_end (min e size) := le_aligned_end (min e size)
  have h3 : s < min e size := lt_min hse hsz
  omega

/-- C9 witness: the bound at `s = 10`, `e = 20`, `size = 1000`. -/
theorem C9_witness :
    (10 - aligned_start 10) + (min 20 1000 - 10) ≤ aligned_end (min 20 1000) - aligned_start 10 :=
  C9_slice_in_bounds 10 20 1000 (by decide) (by decide)

/-- C10.  Frame property: `get_file_data` never changes the session's path,
size, tags, or the open file's content (only the handle's cursor moves),
whether it succeeds or fails; consequently the tag queries, which are pure
functions of the session, answer the same before and after any read. -/
theorem C10_frame (st : FileState) (s e : Nat) :
    (get_file_data st s e).2.file_path = st.file_path ∧
    (get_file_data st s e).2.file_size = st.file_size ∧
    (get_file_data st s e).2.tags = st.tags ∧
    Option.map FileHandle.content (get_file_data st s e).2.file
      = Option.map FileHandle.content st.file ∧
    (∀ s₀ e₀, get_tags_in_range (get_file_data st s e).2 s₀ e₀ = get_tags_in_range st s₀ e₀) ∧
    get_all_tags (get_file_data st s e).2 = get_all_tags st := by
  have key : (get_file_data st s e).2.file_path = st.file_path ∧
      (get_file_data st s e).2.file_size = st.file_size ∧
      (get_file_data st s e).2.tags = st.tags ∧
      Option.map FileHandle.content (get_file_data st s e).2.file
        = Option.map FileHandle.content st.file := by
    by_cases h1 : e ≤ s
    · simp [get_file_data, h1]
    · cases hf : st.file with
      | none => simp [get_file_data, h1, hf]
      | some f =>
        by_cases h2 : s ≥ st.file_size
        · simp [get_file_data, h1, hf, h2]
        · by_cases h3 : aligned_start s +
              (aligned_end (min e st.file_size) - aligned_start s) ≤ f.content.length
          · simp [get_file_data, FileHandle.seek, FileHandle.read_exact, h1, hf, h2, h3]
          · simp [get_file_data, FileHandle.seek, FileHandle.read_exact, h1, hf, h2, h3]
  refine ⟨key.1, key.2.1, key.2.2.1, key.2.2.2, fun s₀ e₀ => ?_, ?_⟩
  · unfold get_tags_in_range
    rw [key.2.2.1]
  · unfold get_all_tags
    exact key.2.2.1

end ByteLeviathan
